import Mathlib

/-!
Shallow embedding of `src/HMProbObjBox.h`: the template class `CHMProbObjBox<T1>`,
a weighted-random-selection container ("probability object box").

Modelling decisions, each tied to the source:
* `int` values (`m_nCurrentProbObjCount`, the weights stored in
  `m_vecProbObjPool`, the counts passed to `Modify`) are modelled as `Int`.
  The capacity guard in `Modify` (line 47) keeps the total at most
  `INT_MAX = 2147483647` on every reachable state, so no reachable arithmetic
  overflows and `Int` is faithful to C++ `int` there.
* `std::vector<std::pair<T1, int>>` becomes `List (T1 × Int)`; iteration order
  of the C++ loops is the list order.
* The C++ item type `T1` needs `operator==`; this is modelled by `DecidableEq`.
* `Draw`'s call to the ambient `rand()` (used only when `nRand` is negative,
  i.e. the `-1` sentinel path) is modelled by an extra explicit argument
  `randv`, so `Draw` is a function of the box, the supplied value and the
  oracle value. C++ `%` on `int` truncates toward zero, which is `Int.tmod`.
* The `const` methods `Draw`, `GetCount`, `GetPool`, `Dump`, `Version` cannot
  mutate the box, so they are modelled as pure functions that return no new
  state; the mutators `Modify` and `Clear` return the new box.
* `ModifyProbObjPool` (lines 134-163) returns `Option (List (T1 × Int))`:
  `none` models `return false` (no mutation happened in that case in the
  source: both `false` paths return before touching the vector), and
  `some pool'` models `return true` with the updated vector.
-/

/-- State of `CHMProbObjBox<T1>`: the cached total count and the pool vector. -/
structure CHMProbObjBox (T1 : Type) where
  m_nCurrentProbObjCount : Int
  m_vecProbObjPool : List (T1 × Int)
deriving DecidableEq

namespace CHMProbObjBox

variable {T1 : Type} [DecidableEq T1]

/-- `static const int m_scnProbObjBoxCapacity = INT_MAX;` (line 131). -/
def m_scnProbObjBoxCapacity : Int := 2147483647

/-- `static const unsigned int m_scunCHMProbObjBoxVersion = 1;` (line 132). -/
def m_scunCHMProbObjBoxVersion : Nat := 1

/-- The default constructor (line 10): zero count, empty pool. -/
def mk0 : CHMProbObjBox T1 := ⟨0, []⟩

/-- `ModifyProbObjPool` (lines 134-163): scan the pool for the item; on a hit,
fail if the adjusted weight would be negative, erase the entry if it becomes
zero, otherwise add the count to it; if the item is absent, fail for a negative
count and append a new entry for a positive one (a zero count falls through
returning success without touching the pool).  `none` is `return false`,
`some pool'` is `return true` with the vector after the call. -/
def ModifyProbObjPool (t1ProbObj : T1) (nCount : Int) :
    List (T1 × Int) → Option (List (T1 × Int))
  | [] =>
      if nCount < 0 then none
      else if 0 < nCount then some [(t1ProbObj, nCount)]
      else some []
  | (y, w) :: rest =>
      if t1ProbObj = y then
        if w + nCount < 0 then none
        else if w + nCount = 0 then some rest
        else some ((y, w + nCount) :: rest)
      else
        (ModifyProbObjPool t1ProbObj nCount rest).map (fun r => (y, w) :: r)

/-- One iteration of the loop body of `Modify` (lines 45-52): skip the pair if
the count is zero or the capacity guard fires; otherwise call
`ModifyProbObjPool` and, on success, add the count to the cached total. -/
def ModifyOne (s : CHMProbObjBox T1) (x : T1) (c : Int) : CHMProbObjBox T1 :=
  if c = 0 ∨ m_scnProbObjBoxCapacity - s.m_nCurrentProbObjCount < c then s
  else
    match ModifyProbObjPool x c s.m_vecProbObjPool with
    | none => s
    | some p => ⟨s.m_nCurrentProbObjCount + c, p⟩

/-- `Modify` (lines 41-53 and the container overload, lines 61-72): apply
`ModifyOne` to each `(item, count)` pair in order.  The C++ null-pointer /
non-positive-length early return corresponds to the empty list. -/
def Modify (s : CHMProbObjBox T1) (pairs : List (T1 × Int)) : CHMProbObjBox T1 :=
  pairs.foldl (fun t p => ModifyOne t p.1 p.2) s

/-- `Clear` (lines 77-81): zero count, empty pool. -/
def Clear (_s : CHMProbObjBox T1) : CHMProbObjBox T1 := ⟨0, []⟩

/-- `GetCount()` with `pProbObj == NULL` (line 90): the cached total. -/
def GetCount (s : CHMProbObjBox T1) : Int := s.m_nCurrentProbObjCount

/-- The scan of `GetCount` (lines 92-96): weight of the first entry whose item
equals `x`, else `0`. -/
def GetCountAux (x : T1) : List (T1 × Int) → Int
  | [] => 0
  | (y, w) :: rest => if x = y then w else GetCountAux x rest

/-- `GetCount(&x)` (lines 88-97): the stored weight of `x`, or `0` if absent. -/
def GetCountOf (s : CHMProbObjBox T1) (x : T1) : Int :=
  GetCountAux x s.m_vecProbObjPool

/-- `GetPool` (lines 102-105): the pool, read-only. -/
def GetPool (s : CHMProbObjBox T1) : List (T1 × Int) := s.m_vecProbObjPool

/-- `Version` (line 126). -/
def Version (_s : CHMProbObjBox T1) : Nat := m_scunCHMProbObjBoxVersion

/-- The loop of `FindProbObjByRandKey` (lines 167-177): running prefix-sum scan
with accumulator `nTop`; each entry covers `[nBotton, nTop)` with
`nBotton = nTop_old`, `nTop = nTop_old + weight`; first hit wins. -/
def FindAux (nRandKey : Int) : Int → List (T1 × Int) → Option T1
  | _, [] => none
  | nTop, (y, w) :: rest =>
      if nRandKey ≥ nTop ∧ nRandKey < nTop + w then some y
      else FindAux nRandKey (nTop + w) rest

/-- `FindProbObjByRandKey` (lines 165-179): `none` models `return false`,
`some obj` models `return true` with the drawn object. -/
def FindProbObjByRandKey (s : CHMProbObjBox T1) (nRandKey : Int) : Option T1 :=
  FindAux nRandKey 0 s.m_vecProbObjPool

/-- `Draw` (lines 23-32).  `randv` stands for the value `rand()` would return;
it is consulted only on the `nRand < 0` path (the `-1` sentinel).  C++ `%` on
`int` is truncating division, i.e. `Int.tmod`. -/
def Draw (s : CHMProbObjBox T1) (nRand : Int) (randv : Int) : Option T1 :=
  if s.m_nCurrentProbObjCount ≤ 0 then none
  else if nRand < 0 ∧ nRand ≠ -1 then none
  else
    FindProbObjByRandKey s
      ((if 0 > nRand then randv else nRand).tmod s.m_nCurrentProbObjCount)

/-- Sum of the weights of a pool. -/
def poolSum (pool : List (T1 × Int)) : Int := (pool.map Prod.snd).sum

/-- The items of a pool, in pool order. -/
def PoolKeys (pool : List (T1 × Int)) : List T1 := pool.map Prod.fst

/-- The state invariant maintained by the class: the cached total is the sum of
the stored weights, every stored weight is positive, no two entries share an
item, and the total is within capacity. -/
def BoxInv (s : CHMProbObjBox T1) : Prop :=
  s.m_nCurrentProbObjCount = poolSum s.m_vecProbObjPool ∧
  (∀ p ∈ s.m_vecProbObjPool, 0 < p.2) ∧
  s.m_vecProbObjPool.Pairwise (fun a b => a.1 ≠ b.1) ∧
  s.m_nCurrentProbObjCount ≤ m_scnProbObjBoxCapacity

/-- An external call on the box: one of the two mutators. -/
inductive BoxOp (T1 : Type) where
  | modify (pairs : List (T1 × Int))
  | clear

/-- Apply one mutating call. -/
def ApplyOp (s : CHMProbObjBox T1) : BoxOp T1 → CHMProbObjBox T1
  | .modify ps => Modify s ps
  | .clear => Clear s

/-- Run a sequence of mutating calls on a newly constructed box. -/
def RunOps (ops : List (BoxOp T1)) : CHMProbObjBox T1 :=
  ops.foldl ApplyOp mk0

/-- Cumulative weight before the `i`-th pool entry: the `nBotton` value the
scan of `FindProbObjByRandKey` has reached when it looks at entry `i`. -/
def prefixLow (pool : List (T1 × Int)) (i : Nat) : Int :=
  poolSum (pool.take i)

/-- The `{A:3, B:2}` box of the spec's coverage example, with `A = 0` and
`B = 1`: total weight `5`, entries in stored order. -/
def exampleBox : CHMProbObjBox Nat := ⟨5, [(0, 3), (1, 2)]⟩

end CHMProbObjBox

namespace CHMProbObjBox

/-! Helper lemmas about the pool operations, shared by the claim theorems. -/

/-- Sum of a pool headed by an explicit pair. -/
theorem poolSum_pair_cons {T1 : Type} (y : T1) (w : Int) (tl : List (T1 × Int)) :
    poolSum ((y, w) :: tl) = w + poolSum tl := by
  simp [poolSum]

/-- Membership in the key list, unfolded. -/
theorem mem_PoolKeys {T1 : Type} {pool : List (T1 × Int)} {a : T1} :
    a ∈ PoolKeys pool ↔ ∃ p ∈ pool, p.1 = a :=
  List.mem_map

/-- A successful `ModifyProbObjPool` call changes the pool's weight sum by
exactly the requested count. -/
theorem MPP_sum {T1 : Type} [DecidableEq T1] (x : T1) (c : Int)
    (pool p2 : List (T1 × Int)) (h : ModifyProbObjPool x c pool = some p2) :
    poolSum p2 = poolSum pool + c := by
  induction pool generalizing p2 with
  | nil =>
      simp only [ModifyProbObjPool] at h
      split_ifs at h with h1 h2
      · obtain rfl := Option.some.inj h
        simp [poolSum]
      · obtain rfl := Option.some.inj h
        simp [poolSum]
        omega
  | cons hd tl ih =>
      obtain ⟨y, w⟩ := hd
      simp only [ModifyProbObjPool] at h
      split_ifs at h with hxy h1 h2
      · obtain rfl := Option.some.inj h
        rw [poolSum_pair_cons]
        omega
      · obtain rfl := Option.some.inj h
        rw [poolSum_pair_cons, poolSum_pair_cons]
        omega
      · rw [Option.map_eq_some'] at h
        obtain ⟨r, hr, h3⟩ := h
        subst h3
        rw [poolSum_pair_cons, poolSum_pair_cons, ih r hr]
        omega

/-- A successful `ModifyProbObjPool` call keeps every stored weight positive. -/
theorem MPP_pos {T1 : Type} [DecidableEq T1] (x : T1) (c : Int)
    (pool p2 : List (T1 × Int)) (hpos : ∀ p ∈ pool, 0 < p.2)
    (h : ModifyProbObjPool x c pool = some p2) :
    ∀ q ∈ p2, 0 < q.2 := by
  induction pool generalizing p2 with
  | nil =>
      simp only [ModifyProbObjPool] at h
      split_ifs at h with h1 h2
      · obtain rfl := Option.some.inj h
        intro q hq
        simp at hq
        subst hq
        exact h2
      · obtain rfl := Option.some.inj h
        intro q hq
        simp at hq
  | cons hd tl ih =>
      obtain ⟨y, w⟩ := hd
      simp only [ModifyProbObjPool] at h
      split_ifs at h with hxy h1 h2
      · obtain rfl := Option.some.inj h
        intro q hq
        exact hpos q (List.mem_cons_of_mem _ hq)
      · obtain rfl := Option.some.inj h
        intro q hq
        rcases List.mem_cons.mp hq with rfl | hq
        · simp
          omega
        · exact hpos q (List.mem_cons_of_mem _ hq)
      · rw [Option.map_eq_some'] at h
        obtain ⟨r, hr, h3⟩ := h
        subst h3
        intro q hq
        rcases List.mem_cons.mp hq with rfl | hq
        · exact hpos (y, w) (List.mem_cons_self _ _)
        · exact ih r (fun p hp => hpos p (List.mem_cons_of_mem _ hp)) hr q hq

/-- Every item present after a successful `ModifyProbObjPool` call is either the
modified item or was present before. -/
theorem MPP_keys {T1 : Type} [DecidableEq T1] (x : T1) (c : Int)
    (pool p2 : List (T1 × Int)) (h : ModifyProbObjPool x c pool = some p2) :
    ∀ q ∈ p2, q.1 = x ∨ q.1 ∈ PoolKeys pool := by
  induction pool generalizing p2 with
  | nil =>
      simp only [ModifyProbObjPool] at h
      split_ifs at h with h1 h2
      · obtain rfl := Option.some.inj h
        intro q hq
        simp at hq
        subst hq
        left
        rfl
      · obtain rfl := Option.some.inj h
        intro q hq
        simp at hq
  | cons hd tl ih =>
      obtain ⟨y, w⟩ := hd
      simp only [ModifyProbObjPool] at h
      split_ifs at h with hxy h1 h2
      · obtain rfl := Option.some.inj h
        intro q hq
        exact Or.inr (mem_PoolKeys.mpr ⟨q, List.mem_cons_of_mem _ hq, rfl⟩)
      · obtain rfl := Option.some.inj h
        intro q hq
        rcases List.mem_cons.mp hq with rfl | hq
        · exact Or.inr (mem_PoolKeys.mpr ⟨(y, w), List.mem_cons_self _ _, rfl⟩)
        · exact Or.inr (mem_PoolKeys.mpr ⟨q, List.mem_cons_of_mem _ hq, rfl⟩)
      · rw [Option.map_eq_some'] at h
        obtain ⟨r, hr, h3⟩ := h
        subst h3
        intro q hq
        rcases List.mem_cons.mp hq with rfl | hq
        · exact Or.inr (mem_PoolKeys.mpr ⟨(y, w), List.mem_cons_self _ _, rfl⟩)
        · rcases ih r hr q hq with h4 | h4
          · exact Or.inl h4
          · obtain ⟨b, hb, hb1⟩ := mem_PoolKeys.mp h4
            exact Or.inr (mem_PoolKeys.mpr ⟨b, List.mem_cons_of_mem _ hb, hb1⟩)

/-- A successful `ModifyProbObjPool` call keeps the pool's items distinct. -/
theorem MPP_pairwise {T1 : Type} [DecidableEq T1] (x : T1) (c : Int)
    (pool p2 : List (T1 × Int))
    (hpw : pool.Pairwise (fun a b => a.1 ≠ b.1))
    (h : ModifyProbObjPool x c pool = some p2) :
    p2.Pairwise (fun a b => a.1 ≠ b.1) := by
  induction pool generalizing p2 with
  | nil =>
      simp only [ModifyProbObjPool] at h
      split_ifs at h with h1 h2
      · obtain rfl := Option.some.inj h
        simp
      · obtain rfl := Option.some.inj h
        simp
  | cons hd tl ih =>
      obtain ⟨y, w⟩ := hd
      rw [List.pairwise_cons] at hpw
      simp only [ModifyProbObjPool] at h
      split_ifs at h with hxy h1 h2
      · obtain rfl := Option.some.inj h
        exact hpw.2
      · obtain rfl := Option.some.inj h
        rw [List.pairwise_cons]
        exact ⟨hpw.1, hpw.2⟩
      · rw [Option.map_eq_some'] at h
        obtain ⟨r, hr, h3⟩ := h
        subst h3
        rw [List.pairwise_cons]
        refine ⟨?_, ih r hpw.2 hr⟩
        intro q hq
        rcases MPP_keys x c tl r hr q hq with h4 | h4
        · rw [h4]
          exact fun hyx => hxy hyx.symm
        · obtain ⟨b, hb, hb1⟩ := mem_PoolKeys.mp h4
          rw [← hb1]
          exact hpw.1 b hb

/-- One `Modify` loop iteration preserves the state invariant. -/
theorem ModifyOne_inv {T1 : Type} [DecidableEq T1] (s : CHMProbObjBox T1)
    (x : T1) (c : Int) (hinv : BoxInv s) : BoxInv (ModifyOne s x c) := by
  unfold ModifyOne
  split
  · exact hinv
  · rename_i hguard
    push_neg at hguard
    cases hm : ModifyProbObjPool x c s.m_vecProbObjPool with
    | none => exact hinv
    | some p =>
        obtain ⟨h1, h2, h3, h4⟩ := hinv
        refine ⟨?_, MPP_pos x c _ p h2 hm, MPP_pairwise x c _ p h3 hm, ?_⟩
        · rw [MPP_sum x c _ p hm, h1]
        · show s.m_nCurrentProbObjCount + c ≤ m_scnProbObjBoxCapacity
          have := hguard.2
          omega

/-- A whole `Modify` call preserves the state invariant. -/
theorem Modify_inv {T1 : Type} [DecidableEq T1] (s : CHMProbObjBox T1)
    (pairs : List (T1 × Int)) (hinv : BoxInv s) : BoxInv (Modify s pairs) := by
  induction pairs generalizing s with
  | nil => exact hinv
  | cons hd tl ih => exact ih _ (ModifyOne_inv s hd.1 hd.2 hinv)

/-- The freshly constructed box satisfies the state invariant. -/
theorem mk0_inv {T1 : Type} [DecidableEq T1] : BoxInv (mk0 : CHMProbObjBox T1) := by
  refine ⟨rfl, ?_, ?_, ?_⟩
  · intro p hp
    simp [mk0] at hp
  · simp [mk0]
  · simp [mk0, m_scnProbObjBoxCapacity]

/-- Both mutating calls preserve the state invariant. -/
theorem ApplyOp_inv {T1 : Type} [DecidableEq T1] (s : CHMProbObjBox T1)
    (op : BoxOp T1) (hinv : BoxInv s) : BoxInv (ApplyOp s op) := by
  cases op with
  | modify ps => exact Modify_inv s ps hinv
  | clear =>
      refine ⟨rfl, ?_, ?_, ?_⟩
      · intro p hp
        simp [Clear, ApplyOp] at hp
      · simp [Clear, ApplyOp]
      · simp [Clear, ApplyOp, m_scnProbObjBoxCapacity]

/-- Every state reachable by mutating calls from a new box satisfies the
state invariant. -/
theorem RunOps_inv {T1 : Type} [DecidableEq T1] (ops : List (BoxOp T1)) :
    BoxInv (RunOps ops) := by
  unfold RunOps
  have h : ∀ (s : CHMProbObjBox T1), BoxInv s → BoxInv (ops.foldl ApplyOp s) := by
    induction ops with
    | nil => exact fun s hs => hs
    | cons hd tl ih => exact fun s hs => ih _ (ApplyOp_inv s hd hs)
  exact h mk0 mk0_inv

/-- On a duplicate-free pool, the `GetCount` scan returns the stored weight of
each entry. -/
theorem GetCountAux_mem {T1 : Type} [DecidableEq T1] (pool : List (T1 × Int))
    (hpw : pool.Pairwise (fun a b => a.1 ≠ b.1)) (p : T1 × Int) (hp : p ∈ pool) :
    GetCountAux p.1 pool = p.2 := by
  induction pool with
  | nil => cases hp
  | cons hd tl ih =>
      obtain ⟨y, w⟩ := hd
      rw [List.pairwise_cons] at hpw
      rcases List.mem_cons.mp hp with rfl | hp
      · simp [GetCountAux]
      · have hne : p.1 ≠ y := fun hh => (hpw.1 p hp) hh.symm
        simp [GetCountAux, hne]
        exact ih hpw.2 hp

/-- Base value of the running prefix sum. -/
theorem prefixLow_zero {T1 : Type} (pool : List (T1 × Int)) :
    prefixLow pool 0 = 0 := rfl

/-- Prefix sum past the head of a pool. -/
theorem prefixLow_pair_cons_succ {T1 : Type} (y : T1) (w : Int)
    (tl : List (T1 × Int)) (i : Nat) :
    prefixLow ((y, w) :: tl) (i + 1) = w + prefixLow tl i := by
  simp [prefixLow, poolSum]

/-- Prefix sums of a pool with non-negative weights are non-negative. -/
theorem prefixLow_nonneg {T1 : Type} (pool : List (T1 × Int))
    (hpos : ∀ p ∈ pool, 0 ≤ p.2) (i : Nat) : 0 ≤ prefixLow pool i := by
  unfold prefixLow poolSum
  apply List.sum_nonneg
  intro a ha
  obtain ⟨p, hp, rfl⟩ := List.mem_map.mp ha
  exact hpos p (List.mem_of_mem_take hp)

/-- Prefix sums of a pool with non-negative weights are monotone. -/
theorem prefixLow_mono {T1 : Type} (pool : List (T1 × Int))
    (hpos : ∀ p ∈ pool, 0 ≤ p.2) {i j : Nat} (hij : i ≤ j) :
    prefixLow pool i ≤ prefixLow pool j := by
  induction pool generalizing i j with
  | nil => simp [prefixLow, poolSum]
  | cons hd tl ih =>
      obtain ⟨y, w⟩ := hd
      cases i with
      | zero =>
          rw [prefixLow_zero]
          apply prefixLow_nonneg
          exact hpos
      | succ i2 =>
          cases j with
          | zero => omega
          | succ j2 =>
              rw [prefixLow_pair_cons_succ, prefixLow_pair_cons_succ]
              have := ih (fun p hp => hpos p (List.mem_cons_of_mem _ hp))
                (Nat.succ_le_succ_iff.mp hij)
              omega

/-- Stepping the prefix sum over entry `i` adds that entry's weight: the `i`-th
range of the scan is `[prefixLow i, prefixLow (i+1))`. -/
theorem prefixLow_succ_get {T1 : Type} (pool : List (T1 × Int)) (i : Nat)
    (hi : i < pool.length) :
    prefixLow pool (i + 1) = prefixLow pool i + (pool.get ⟨i, hi⟩).2 := by
  induction pool generalizing i with
  | nil => simp at hi
  | cons hd tl ih =>
      obtain ⟨y, w⟩ := hd
      cases i with
      | zero => simp [prefixLow, poolSum]
      | succ i2 =>
          rw [prefixLow_pair_cons_succ, prefixLow_pair_cons_succ,
            ih i2 (by simpa using hi)]
          simp
          omega

/-- The scan accumulator only enters through the difference between the key and
the accumulated weight. -/
theorem FindAux_shift {T1 : Type} (k t : Int) (pool : List (T1 × Int)) :
    FindAux k t pool = FindAux (k - t) 0 pool := by
  induction pool generalizing k t with
  | nil => simp [FindAux]
  | cons hd tl ih =>
      obtain ⟨y, w⟩ := hd
      simp only [FindAux]
      by_cases hc : k ≥ t ∧ k < t + w
      · rw [if_pos hc, if_pos (by omega)]
      · rw [if_neg hc, if_neg (by omega), ih k (t + w), ih (k - t) (0 + w)]
        congr 1
        omega

/-- For a key in `[0, totalWeight)` over a positive-weight pool, the scan hits
some entry whose range contains the key. -/
theorem FindAux_success {T1 : Type} (pool : List (T1 × Int)) (k : Int)
    (hpos : ∀ p ∈ pool, 0 < p.2) (hk0 : 0 ≤ k) (hk1 : k < poolSum pool) :
    ∃ i : Fin pool.length,
      FindAux k 0 pool = some (pool.get i).1 ∧
      prefixLow pool i.1 ≤ k ∧ k < prefixLow pool i.1 + (pool.get i).2 := by
  induction pool generalizing k with
  | nil =>
      simp [poolSum] at hk1
      omega
  | cons hd tl ih =>
      obtain ⟨y, w⟩ := hd
      by_cases hc : k < w
      · refine ⟨⟨0, by simp⟩, ?_, ?_, ?_⟩
        · simp only [FindAux]
          rw [if_pos ⟨by omega, by omega⟩]
          rfl
        · rw [prefixLow_zero]
          exact hk0
        · rw [prefixLow_zero]
          simpa using hc
      · rw [poolSum_pair_cons] at hk1
        have hw : 0 < w := hpos (y, w) (List.mem_cons_self _ _)
        obtain ⟨i2, hfind, hlo, hhi⟩ :=
          ih (k - w) (fun p hp => hpos p (List.mem_cons_of_mem _ hp))
            (by omega) (by omega)
        refine ⟨⟨i2.1 + 1, by simp⟩, ?_, ?_, ?_⟩
        · simp only [FindAux]
          rw [if_neg (by omega), FindAux_shift]
          have h0w : k - (0 + w) = k - w := by omega
          rw [h0w, hfind]
          rfl
        · rw [prefixLow_pair_cons_succ]
          omega
        · rw [prefixLow_pair_cons_succ]
          have hget : ((y, w) :: tl).get ⟨i2.1 + 1, by simp⟩ = tl.get i2 := rfl
          rw [hget]
          omega

/-- Over a positive-weight pool the ranges `[prefixLow i, prefixLow i + wᵢ)`
are pairwise disjoint: a key lies in at most one of them. -/
theorem FindAux_unique {T1 : Type} (pool : List (T1 × Int))
    (hpos : ∀ p ∈ pool, 0 < p.2) (k : Int) (i j : Fin pool.length)
    (hi1 : prefixLow pool i.1 ≤ k) (hi2 : k < prefixLow pool i.1 + (pool.get i).2)
    (hj1 : prefixLow pool j.1 ≤ k) (hj2 : k < prefixLow pool j.1 + (pool.get j).2) :
    i = j := by
  have hnn : ∀ p ∈ pool, 0 ≤ p.2 := fun p hp => le_of_lt (hpos p hp)
  rcases lt_trichotomy i.1 j.1 with hlt | heq | hlt
  · exfalso
    have h1 : prefixLow pool (i.1 + 1) = prefixLow pool i.1 + (pool.get i).2 :=
      prefixLow_succ_get pool i.1 i.2
    have h2 : prefixLow pool (i.1 + 1) ≤ prefixLow pool j.1 :=
      prefixLow_mono pool hnn hlt
    omega
  · exact Fin.ext heq
  · exfalso
    have h1 : prefixLow pool (j.1 + 1) = prefixLow pool j.1 + (pool.get j).2 :=
      prefixLow_succ_get pool j.1 j.2
    have h2 : prefixLow pool (j.1 + 1) ≤ prefixLow pool i.1 :=
      prefixLow_mono pool hnn hlt
    omega

/-- With a present item and a negative count bigger in magnitude than the
stored weight, `ModifyProbObjPool` fails without a new pool. -/
theorem MPP_found_insufficient {T1 : Type} [DecidableEq T1] (x : T1) (c : Int)
    (pool : List (T1 × Int))
    (hmem : x ∈ PoolKeys pool) (hneg : GetCountAux x pool + c < 0) :
    ModifyProbObjPool x c pool = none := by
  induction pool with
  | nil => simp [PoolKeys] at hmem
  | cons hd tl ih =>
      obtain ⟨y, w⟩ := hd
      by_cases hxy : x = y
      · simp [GetCountAux, hxy] at hneg
        simp [ModifyProbObjPool, hxy, hneg]
      · simp [PoolKeys, hxy] at hmem
        simp [GetCountAux, hxy] at hneg
        simp [ModifyProbObjPool, hxy, ih (by simpa [PoolKeys] using hmem) hneg]

/-- With an absent item and a negative count, `ModifyProbObjPool` fails
without a new pool. -/
theorem MPP_absent_neg {T1 : Type} [DecidableEq T1] (x : T1) (c : Int)
    (pool : List (T1 × Int))
    (habs : x ∉ PoolKeys pool) (hneg : c < 0) :
    ModifyProbObjPool x c pool = none := by
  induction pool with
  | nil => simp [ModifyProbObjPool, hneg]
  | cons hd tl ih =>
      obtain ⟨y, w⟩ := hd
      simp [PoolKeys] at habs
      simp [ModifyProbObjPool, habs.1, ih (by simpa [PoolKeys] using habs.2)]

end CHMProbObjBox

namespace CHMProbObjBox

/-! Claim theorems. -/

/-- C1 (counterexample): the claim says two `Modify(X, 5)` calls on an empty
box leave `GetCount(X) == 5` and `GetCount() == 5`.  On the code they leave
both at `10` (with `X = 0 : Nat`), so the claimed equalities are false. -/
theorem C1_set_to_counterexample :
    ¬ (GetCountOf (Modify (Modify (mk0 : CHMProbObjBox Nat) [(0, 5)]) [(0, 5)]) 0 = 5 ∧
       GetCount (Modify (Modify (mk0 : CHMProbObjBox Nat) [(0, 5)]) [(0, 5)]) = 5) := by
  decide

/-- C1 (amended): `Modify` is additive, not set-to.  For every item `X`,
calling `Modify(X, 5)` twice on an initially empty box leaves
`GetCount(X) == 10` and `GetCount() == 10`: the second call adds to the stored
weight instead of replacing it. -/
theorem C1_modify_is_additive {T1 : Type} [DecidableEq T1] (x : T1) :
    GetCountOf (Modify (Modify mk0 [(x, 5)]) [(x, 5)]) x = 10 ∧
    GetCount (Modify (Modify mk0 [(x, 5)]) [(x, 5)]) = 10 := by
  norm_num [Modify, ModifyOne, ModifyProbObjPool, mk0, m_scnProbObjBoxCapacity,
    GetCountOf, GetCountAux, GetCount]

/-- C1 (witness): the amended claim instantiated at `X = 0 : Nat`. -/
theorem C1_modify_is_additive_witness :
    GetCountOf (Modify (Modify (mk0 : CHMProbObjBox Nat) [(0, 5)]) [(0, 5)]) 0 = 10 ∧
    GetCount (Modify (Modify (mk0 : CHMProbObjBox Nat) [(0, 5)]) [(0, 5)]) = 10 :=
  C1_modify_is_additive 0

/-- C2 (counterexample): the claim says `Modify(X, 5)` then `Modify(X, 0)`
leaves `GetCount(X) == 0`, `GetCount() == 0` and `X` absent.  On the code a
zero count is skipped by the `Modify` loop before the pool is touched, so
(with `X = 0 : Nat`) the box still holds `X` with weight `5`. -/
theorem C2_zero_removes_counterexample :
    ¬ (GetCountOf (Modify (Modify (mk0 : CHMProbObjBox Nat) [(0, 5)]) [(0, 0)]) 0 = 0 ∧
       GetCount (Modify (Modify (mk0 : CHMProbObjBox Nat) [(0, 5)]) [(0, 0)]) = 0 ∧
       0 ∉ PoolKeys (GetPool (Modify (Modify (mk0 : CHMProbObjBox Nat) [(0, 5)]) [(0, 0)]))) := by
  decide

/-- C2 (amended): `Modify(X, 0)` is always a silent no-op — the loop skips
zero counts before looking at the pool, whether or not `X` is present.
Removal is done with a negative count of the stored weight's magnitude:
`Modify(X, 5)` then `Modify(X, -5)` leaves `GetCount(X) == 0`,
`GetCount() == 0` and `X` absent from `GetPool()`. -/
theorem C2_zero_is_noop_negative_removes {T1 : Type} [DecidableEq T1]
    (s : CHMProbObjBox T1) (x : T1) :
    Modify s [(x, 0)] = s ∧
    GetCountOf (Modify (Modify mk0 [(x, 5)]) [(x, -5)]) x = 0 ∧
    GetCount (Modify (Modify mk0 [(x, 5)]) [(x, -5)]) = 0 ∧
    GetPool (Modify (Modify mk0 [(x, 5)]) [(x, -5)]) = [] := by
  refine ⟨?_, ?_, ?_, ?_⟩ <;>
    norm_num [Modify, ModifyOne, ModifyProbObjPool, mk0, m_scnProbObjBoxCapacity,
      GetCountOf, GetCountAux, GetCount, GetPool]

/-- C2 (witness): the amended claim instantiated at the `{A:3, B:2}` box and
`X = 0 : Nat`. -/
theorem C2_zero_is_noop_negative_removes_witness :
    Modify exampleBox [(0, 0)] = exampleBox ∧
    GetCountOf (Modify (Modify (mk0 : CHMProbObjBox Nat) [(0, 5)]) [(0, -5)]) 0 = 0 ∧
    GetCount (Modify (Modify (mk0 : CHMProbObjBox Nat) [(0, 5)]) [(0, -5)]) = 0 ∧
    GetPool (Modify (Modify (mk0 : CHMProbObjBox Nat) [(0, 5)]) [(0, -5)]) = [] :=
  C2_zero_is_noop_negative_removes exampleBox 0

/-- C3: on any box satisfying the invariant with positive total weight and any
supplied key `k ≥ 0`, `Draw` returns exactly what the prefix-sum scan returns
at the reduced key `k mod totalWeight`; the reduced key lies in
`[0, totalWeight)`; and the scan selects an entry `i` whose cumulative range
`[prefixLow i, prefixLow i + weight i)` contains the reduced key, every other
entry's range missing it — so each reduced key selects exactly one entry. -/
theorem C3_draw_scans_prefix_ranges {T1 : Type} [DecidableEq T1]
    (s : CHMProbObjBox T1) (hinv : BoxInv s)
    (hne : 0 < s.m_nCurrentProbObjCount) (k rv : Int) (hk : 0 ≤ k) :
    Draw s k rv = FindProbObjByRandKey s (k.tmod s.m_nCurrentProbObjCount) ∧
    0 ≤ k.tmod s.m_nCurrentProbObjCount ∧
    k.tmod s.m_nCurrentProbObjCount < s.m_nCurrentProbObjCount ∧
    ∃ i : Fin s.m_vecProbObjPool.length,
      (FindProbObjByRandKey s (k.tmod s.m_nCurrentProbObjCount) =
          some (s.m_vecProbObjPool.get i).1 ∧
       prefixLow s.m_vecProbObjPool i.1 ≤ k.tmod s.m_nCurrentProbObjCount ∧
       k.tmod s.m_nCurrentProbObjCount <
          prefixLow s.m_vecProbObjPool i.1 + (s.m_vecProbObjPool.get i).2) ∧
      ∀ j : Fin s.m_vecProbObjPool.length,
        (prefixLow s.m_vecProbObjPool j.1 ≤ k.tmod s.m_nCurrentProbObjCount ∧
         k.tmod s.m_nCurrentProbObjCount <
            prefixLow s.m_vecProbObjPool j.1 + (s.m_vecProbObjPool.get j).2) →
        j = i := by
  obtain ⟨h1, h2, h3, h4⟩ := hinv
  have htm : k.tmod s.m_nCurrentProbObjCount = k % s.m_nCurrentProbObjCount :=
    Int.tmod_eq_emod hk (le_of_lt hne)
  have hb0 : 0 ≤ k.tmod s.m_nCurrentProbObjCount := by
    rw [htm]
    exact Int.emod_nonneg k (by omega)
  have hb1 : k.tmod s.m_nCurrentProbObjCount < s.m_nCurrentProbObjCount := by
    rw [htm]
    exact Int.emod_lt_of_pos k hne
  have hdraw : Draw s k rv =
      FindProbObjByRandKey s (k.tmod s.m_nCurrentProbObjCount) := by
    unfold Draw
    rw [if_neg (by omega), if_neg (by omega)]
    have hkk : (if 0 > k then rv else k) = k := by
      rw [if_neg (by omega)]
    rw [hkk]
  refine ⟨hdraw, hb0, hb1, ?_⟩
  obtain ⟨i, hfind, hlo, hhi⟩ :=
    FindAux_success s.m_vecProbObjPool _ h2 hb0 (by omega)
  refine ⟨i, ⟨hfind, hlo, hhi⟩, ?_⟩
  intro j hj
  exact FindAux_unique s.m_vecProbObjPool h2 _ j i hj.1 hj.2 hlo hhi

/-- C3 (witness): the theorem applied to the `{A:3, B:2}` box at key `7`
(reduced key `2`), together with the spec's concrete coverage table: keys
`0,1,2` draw `A = 0` and keys `3,4` draw `B = 1`. -/
theorem C3_draw_scans_prefix_ranges_witness :
    (BoxInv exampleBox ∧ 0 < exampleBox.m_nCurrentProbObjCount ∧ (0 : Int) ≤ 7) ∧
    Draw exampleBox 7 0 =
      FindProbObjByRandKey exampleBox ((7 : Int).tmod exampleBox.m_nCurrentProbObjCount) ∧
    Draw exampleBox 0 0 = some 0 ∧ Draw exampleBox 1 0 = some 0 ∧
    Draw exampleBox 2 0 = some 0 ∧ Draw exampleBox 3 0 = some 1 ∧
    Draw exampleBox 4 0 = some 1 := by
  refine ⟨⟨⟨by decide, by decide, by decide, by decide⟩, by decide, by decide⟩,
    ?_, by decide, by decide, by decide, by decide, by decide⟩
  exact (C3_draw_scans_prefix_ranges exampleBox
    ⟨by decide, by decide, by decide, by decide⟩ (by decide) 7 0 (by decide)).1

/-- C4: after every sequence of `Modify`/`Clear` calls on a new box, the cached
total equals the sum over the pool of each present item's `GetCount`, no stored
entry has weight `0`, no two entries share an item, and the total is at most
the capacity. -/
theorem C4_state_invariant {T1 : Type} [DecidableEq T1] (ops : List (BoxOp T1)) :
    GetCount (RunOps ops) =
      ((RunOps ops).m_vecProbObjPool.map
        (fun p => GetCountOf (RunOps ops) p.1)).sum ∧
    (∀ p ∈ (RunOps ops).m_vecProbObjPool, p.2 ≠ 0) ∧
    (RunOps ops).m_vecProbObjPool.Pairwise (fun a b => a.1 ≠ b.1) ∧
    GetCount (RunOps ops) ≤ m_scnProbObjBoxCapacity := by
  obtain ⟨h1, h2, h3, h4⟩ := RunOps_inv ops
  refine ⟨?_, fun p hp => ne_of_gt (h2 p hp), h3, h4⟩
  rw [GetCount, h1, poolSum]
  congr 1
  apply List.map_congr_left
  intro p hp
  exact (GetCountAux_mem _ h3 p hp).symm

/-- C4 (witness): the invariant theorem instantiated at the call sequence
`Modify [(0,3),(1,2)]; Clear; Modify [(4,7)]` over `Nat` items. -/
theorem C4_state_invariant_witness :
    GetCount (RunOps [BoxOp.modify [((0 : Nat), 3), (1, 2)], BoxOp.clear,
        BoxOp.modify [(4, 7)]]) =
      ((RunOps [BoxOp.modify [((0 : Nat), 3), (1, 2)], BoxOp.clear,
        BoxOp.modify [(4, 7)]]).m_vecProbObjPool.map
        (fun p => GetCountOf (RunOps [BoxOp.modify [((0 : Nat), 3), (1, 2)],
          BoxOp.clear, BoxOp.modify [(4, 7)]]) p.1)).sum ∧
    (∀ p ∈ (RunOps [BoxOp.modify [((0 : Nat), 3), (1, 2)], BoxOp.clear,
        BoxOp.modify [(4, 7)]]).m_vecProbObjPool, p.2 ≠ 0) ∧
    (RunOps [BoxOp.modify [((0 : Nat), 3), (1, 2)], BoxOp.clear,
        BoxOp.modify [(4, 7)]]).m_vecProbObjPool.Pairwise
        (fun a b => a.1 ≠ b.1) ∧
    GetCount (RunOps [BoxOp.modify [((0 : Nat), 3), (1, 2)], BoxOp.clear,
        BoxOp.modify [(4, 7)]]) ≤ m_scnProbObjBoxCapacity :=
  C4_state_invariant [BoxOp.modify [((0 : Nat), 3), (1, 2)], BoxOp.clear,
    BoxOp.modify [(4, 7)]]

/-- C5: a `(item, count)` pair whose application would push the total weight
above the capacity is skipped by the `Modify` loop: the state — pool, targeted
entry and total — is completely unchanged, and nothing is raised. -/
theorem C5_capacity_guard_skips {T1 : Type} [DecidableEq T1]
    (s : CHMProbObjBox T1) (x : T1) (c : Int)
    (h : m_scnProbObjBoxCapacity < s.m_nCurrentProbObjCount + c) :
    ModifyOne s x c = s ∧ Modify s [(x, c)] = s := by
  have hg : m_scnProbObjBoxCapacity - s.m_nCurrentProbObjCount < c := by omega
  exact ⟨by simp [ModifyOne, hg], by simp [Modify, ModifyOne, hg]⟩

/-- C5 (witness): inserting `INT_MAX + 1` tickets into a fresh box is skipped. -/
theorem C5_capacity_guard_skips_witness :
    m_scnProbObjBoxCapacity <
      (mk0 : CHMProbObjBox Nat).m_nCurrentProbObjCount + 2147483648 ∧
    ModifyOne (mk0 : CHMProbObjBox Nat) 0 2147483648 = mk0 ∧
    Modify (mk0 : CHMProbObjBox Nat) [(0, 2147483648)] = mk0 :=
  ⟨by decide, (C5_capacity_guard_skips mk0 0 2147483648 (by decide)).1,
    (C5_capacity_guard_skips mk0 0 2147483648 (by decide)).2⟩

/-- C6 (counterexample): the claim says `Version()` returns `2`; the source's
version constant is `1`, so `Version()` on any box (here a fresh `Nat` box)
does not return `2`. -/
theorem C6_version_counterexample :
    ¬ (Version (mk0 : CHMProbObjBox Nat) = 2) := by
  decide

/-- C6 (amended): `Version()` returns the unsigned integer constant `1`, the
version recorded in `m_scunCHMProbObjBoxVersion`. -/
theorem C6_version_is_one {T1 : Type} [DecidableEq T1] (s : CHMProbObjBox T1) :
    Version s = 1 ∧ m_scunCHMProbObjBoxVersion = 1 :=
  ⟨rfl, rfl⟩

/-- C6 (witness): the amended claim at a fresh `Nat` box. -/
theorem C6_version_is_one_witness :
    Version (mk0 : CHMProbObjBox Nat) = 1 ∧ m_scunCHMProbObjBoxVersion = 1 :=
  C6_version_is_one mk0

/-- C7: whenever the total weight is `0` — as on a freshly constructed box and
on any box just cleared — `Draw` fails for every input, sentinel included. -/
theorem C7_empty_draw_fails {T1 : Type} [DecidableEq T1] (s : CHMProbObjBox T1)
    (h : s.m_nCurrentProbObjCount = 0) (nRand randv : Int) :
    Draw s nRand randv = none ∧
    (mk0 : CHMProbObjBox T1).m_nCurrentProbObjCount = 0 ∧
    (Clear s).m_nCurrentProbObjCount = 0 := by
  refine ⟨?_, rfl, rfl⟩
  simp [Draw, h]

/-- C7 (witness): drawing from a fresh box with the `-1` sentinel fails. -/
theorem C7_empty_draw_fails_witness :
    (mk0 : CHMProbObjBox Nat).m_nCurrentProbObjCount = 0 ∧
    Draw (mk0 : CHMProbObjBox Nat) (-1) 7 = none :=
  ⟨rfl, (C7_empty_draw_fails mk0 rfl (-1) 7).1⟩

/-- C8: for every box, `Draw` with a negative random input other than the `-1`
sentinel fails.  `Draw` is a `const` method, modelled as a pure function, so it
cannot mutate the box. -/
theorem C8_negative_rand_fails {T1 : Type} [DecidableEq T1]
    (s : CHMProbObjBox T1) (nRand : Int) (h1 : nRand < 0) (h2 : nRand ≠ -1)
    (randv : Int) :
    Draw s nRand randv = none := by
  unfold Draw
  split
  · rfl
  · rw [if_pos ⟨h1, h2⟩]

/-- C8 (witness): `Draw` with `-2` on the non-empty `{A:3, B:2}` box fails. -/
theorem C8_negative_rand_fails_witness :
    ((-2 : Int) < 0 ∧ (-2 : Int) ≠ -1) ∧
    Draw exampleBox (-2) 9 = none :=
  ⟨⟨by decide, by decide⟩,
    C8_negative_rand_fails exampleBox (-2) (by decide) (by decide) 9⟩

/-- C9: `Draw` with an explicit non-negative key is a pure function of the
current pool state and the key: the randomness oracle is never consulted, so
two calls with the same key and no intervening mutation return the same result
(and, the method being `const`, the pool and total are untouched). -/
theorem C9_draw_deterministic {T1 : Type} [DecidableEq T1]
    (s : CHMProbObjBox T1) (k : Int) (hk : 0 ≤ k) (rv rv2 : Int) :
    Draw s k rv = Draw s k rv2 := by
  unfold Draw
  have hnot : ¬ (0 > k) := not_lt.mpr hk
  simp [hnot]

/-- C9 (witness): two draws at key `2` with different oracle values agree. -/
theorem C9_draw_deterministic_witness :
    (0 : Int) ≤ 2 ∧ Draw exampleBox 2 10 = Draw exampleBox 2 99 :=
  ⟨by decide, C9_draw_deterministic exampleBox 2 (by decide) 10 99⟩

/-- C10: a `Modify` pair with a negative count whose magnitude exceeds the
item's stored weight, or with a negative count for an absent item, leaves the
pool and the total weight completely unchanged: `ModifyProbObjPool` reports
failure before any state is touched. -/
theorem C10_failed_withdrawal_atomic {T1 : Type} [DecidableEq T1]
    (s : CHMProbObjBox T1) (x : T1) (c : Int) (hc : c < 0)
    (h : (x ∈ PoolKeys s.m_vecProbObjPool ∧ GetCountOf s x + c < 0) ∨
         x ∉ PoolKeys s.m_vecProbObjPool) :
    ModifyOne s x c = s ∧ Modify s [(x, c)] = s := by
  have hpool : ModifyProbObjPool x c s.m_vecProbObjPool = none := by
    rcases h with ⟨hmem, hneg⟩ | habs
    · exact MPP_found_insufficient x c _ hmem hneg
    · exact MPP_absent_neg x c _ habs hc
  exact ⟨by simp [ModifyOne, hpool], by simp [Modify, ModifyOne, hpool]⟩

/-- C10 (witness): withdrawing `7` tickets of item `0` (stored weight `3`) from
the `{A:3, B:2}` box, and withdrawing from the absent item `9`, both leave the
box unchanged. -/
theorem C10_failed_withdrawal_atomic_witness :
    ((-7 : Int) < 0 ∧
      (0 ∈ PoolKeys exampleBox.m_vecProbObjPool ∧
        GetCountOf exampleBox 0 + -7 < 0)) ∧
    Modify exampleBox [(0, -7)] = exampleBox ∧
    Modify exampleBox [(9, -1)] = exampleBox :=
  ⟨⟨by decide, by decide, by decide⟩,
    (C10_failed_withdrawal_atomic exampleBox 0 (-7) (by decide)
      (Or.inl ⟨by decide, by decide⟩)).2,
    (C10_failed_withdrawal_atomic exampleBox 9 (-1) (by decide)
      (Or.inr (by decide))).2⟩

end CHMProbObjBox
